import Mathlib

/-!
Shallow embedding of the message reader/writer classes of
`src/ext/common/MessageReadersWriters.h` and of the shared dispatcher state of
`src/ext/common/MultiLibeio.cpp`, together with theorems settling the frozen
claims about them.

Bytes are modelled as `Nat` (actual wire bytes are < 256; nothing in the code
depends on that except the big-endian value computation, which we perform
exactly on the byte lists the code accumulates).  Machine integers (`uint16_t`,
`uint32_t`, the `unsigned int` size accumulators) are modelled as `Nat` with an
explicit `% 2^w` at the points where the C++ types truncate.
-/

namespace Passenger

/-- Big-endian interpretation of a byte list, as performed by `ntohs`/`ntohl`
on the accumulated wire bytes. -/
def beVal (l : List Nat) : Nat := l.foldl (fun a b => a * 256 + b) 0

/-- Big-endian encoding of `v` into `w` bytes, as performed by
`htons`/`htonl` in `Uint16Message::generate` / `Uint32Message::generate`.
Only `v % 256^w` is representable, matching the C++ fixed-width argument. -/
def beBytes : Nat → Nat → List Nat
  | 0, _ => []
  | w + 1, v => beBytes w (v / 256) ++ [v % 256]

/-!
## Integer codecs

`Uint16Message` and `Uint32Message` are textually identical except for the
integer width (2 vs. 4 bytes), so we embed them once, parametrised by the
width `w`.  The C++ state is the partially filled `val` memory plus the
`consumed` counter; we keep the accumulated wire bytes (`acc`, with
`consumed = acc.length`) and the host-order `val`, which the code overwrites
with the converted value exactly when the accumulator fills up. -/

structure UintMessage where
  acc : List Nat
  val : Nat
deriving Repr, DecidableEq

/-- The constructor `Uint16Message()` / `Uint32Message()`: `consumed = 0`.
The `val` memory is uninitialised in C++; we pick 0. -/
def UintMessage.start : UintMessage := ⟨[], 0⟩

/-- `done()` for width `w`: `consumed == sizeof(uintw_t)`. -/
def UintMessage.done (w : Nat) (m : UintMessage) : Bool := m.acc.length == w

/-- `Uint16Message::feed` / `Uint32Message::feed` for width `w`:
consume `min(size, w - consumed)` bytes into the accumulator, and convert
from wire to host order when the accumulator fills on this call. -/
def UintMessage.feed (w : Nat) (m : UintMessage) (data : List Nat) :
    UintMessage × Nat :=
  let locallyConsumed := min data.length (w - m.acc.length)
  let acc := m.acc ++ data.take locallyConsumed
  (⟨acc, if 0 < locallyConsumed ∧ acc.length = w then beVal acc else m.val⟩,
   locallyConsumed)

/-- `value()`. -/
def UintMessage.value (m : UintMessage) : Nat := m.val

/-!
## Framed message readers

`ArrayMessage` and `ScalarMessage` are the same state machine; they differ
only in the header width (2 vs. 4 bytes) and in how the completed body is
interpreted (`parseBody`, i.e. NUL splitting, vs. the body verbatim).  We
embed the machine once as `Reader α`, parametrised by the width `w` and the
body interpretation `parse`, and instantiate it below for both classes.

The member `toReserve` of `ArrayMessage` only pre-sizes `vector` capacity and
has no observable effect on parsing, so it is not modelled.  The `result`
member is a borrowed view in C++ (`vector<StaticString>` / `StaticString`);
we model a view by its byte contents (`result`) plus a tag `resultSource`
recording which buffer backs it: the memory of the caller's current `feed`
chunk (the zero-copy path) or the reader's owned `buffer`. -/

inductive RState where
  | READING_HEADER
  | READING_BODY
  | DONE
  | ERROR
deriving Repr, DecidableEq

inductive Source where
  | fromInput
  | fromBuffer
deriving Repr, DecidableEq

/-- The single error kind, `Error::TOO_LARGE` (value 0 in both enums). -/
def TOO_LARGE : Nat := 0

structure Reader (α : Type) where
  state : RState
  error : Nat
  maxSize : Nat
  headerReader : UintMessage
  buffer : List Nat
  result : α
  resultSource : Source
deriving Repr, DecidableEq

/-- `done()`: `state == DONE || state == ERROR`. -/
def Reader.done (r : Reader α) : Bool :=
  r.state == RState.DONE || r.state == RState.ERROR

/-- `hasError()`: `state == ERROR`. -/
def Reader.hasError (r : Reader α) : Bool := r.state == RState.ERROR

/-- `errorCode()`. -/
def Reader.errorCode (r : Reader α) : Nat := r.error

/-- `value()`. -/
def Reader.value (r : Reader α) : α := r.result

/-- The `READING_BODY` arm of the `feed` loop, shared verbatim by
`ArrayMessage::feed` and `ScalarMessage::feed`: zero-copy when nothing is
buffered and the rest of the chunk covers the whole body, otherwise append
to the owned buffer and finish when it reaches the header value. -/
def Reader.bodyStep (parse : List Nat → α) (r : Reader α)
    (current : List Nat) : Reader α × Nat :=
  let value := r.headerReader.val
  if r.buffer = [] ∧ value ≤ current.length then
    ({ r with
        state := RState.DONE
        result := parse (current.take value)
        resultSource := Source.fromInput },
     value)
  else
    let toConsume := min current.length (value - r.buffer.length)
    let buffer := r.buffer ++ current.take toConsume
    if buffer.length = value then
      ({ r with
          state := RState.DONE
          buffer := buffer
          result := parse buffer
          resultSource := Source.fromBuffer },
       toConsume)
    else
      ({ r with buffer := buffer }, toConsume)

/-- The `READING_HEADER` arm of the `feed` loop: feed the header codec; on
header completion transition to `ERROR` (ceiling exceeded), `DONE` (zero
header) or `READING_BODY`; in the latter case the C++ `while` loop runs the
body arm in the same call when unconsumed bytes remain. -/
def Reader.headerStep (w : Nat) (parse : List Nat → α) (r : Reader α)
    (data : List Nat) : Reader α × Nat :=
  let fd := UintMessage.feed w r.headerReader data
  let hr := fd.1
  let d := fd.2
  if hr.acc.length = w then
    if 0 < r.maxSize ∧ r.maxSize < hr.val then
      ({ r with headerReader := hr, state := RState.ERROR, error := TOO_LARGE },
       d)
    else if hr.val = 0 then
      ({ r with headerReader := hr, state := RState.DONE }, d)
    else
      let r2 : Reader α :=
        { r with headerReader := hr, state := RState.READING_BODY }
      if d < data.length then
        let bc := Reader.bodyStep parse r2 (data.drop d)
        (bc.1, d + bc.2)
      else
        (r2, d)
  else
    ({ r with headerReader := hr }, d)

/-- `ArrayMessage::feed` / `ScalarMessage::feed`.  The C++ `while (consumed <
size && !done())` loop runs the header arm at most once (either the header
codec swallows the whole chunk, or the header completes and the loop falls
through to the body arm) and the body arm at most once (it either consumes the
rest of the chunk or reaches `DONE`), so the loop is unrolled into
`headerStep` followed, within the same call, by `bodyStep`. -/
def Reader.feed (w : Nat) (parse : List Nat → α) (r : Reader α)
    (data : List Nat) : Reader α × Nat :=
  if data.length = 0 ∨ r.done then (r, 0)
  else
    match r.state with
    | RState.READING_HEADER => Reader.headerStep w parse r data
    | RState.READING_BODY => Reader.bodyStep parse r data
    | RState.DONE => (r, 0)
    | RState.ERROR => (r, 0)

/-- Feeding a list of chunks in order to the same reader, summing the
per-call consumed counts. -/
def Reader.feedMany (w : Nat) (parse : List Nat → α) (r : Reader α) :
    List (List Nat) → Reader α × Nat
  | [] => (r, 0)
  | c :: cs =>
    let p := Reader.feed w parse r c
    let q := Reader.feedMany w parse p.1 cs
    (q.1, p.2 + q.2)

/-- A freshly constructed reader (constructor plus optional `setMaxSize`):
`state = READING_HEADER`, header codec reset, empty buffer, empty result.
`a0` is the default-constructed result member. -/
def Reader.fresh (maxSize : Nat) (a0 : α) : Reader α :=
  ⟨RState.READING_HEADER, 0, maxSize, UintMessage.start, [], a0, Source.fromBuffer⟩

/-- The `memchr` loop of `ArrayMessage::parseBody`, scanning left to right:
`cur` holds the bytes of the current field seen since the last NUL; each NUL
emits the field; bytes left in `cur` when the data ends (a trailing field not
terminated by a NUL) are dropped. -/
def parseBodyAux (cur : List Nat) : List Nat → List (List Nat)
  | [] => []
  | b :: rest =>
    if b = 0 then cur :: parseBodyAux [] rest
    else parseBodyAux (cur ++ [b]) rest

/-- `ArrayMessage::parseBody`: split the body on NUL separators.  The C++
method pushes onto the (empty) `result` member; we return the list. -/
def ArrayMessage.parseBody (data : List Nat) : List (List Nat) :=
  parseBodyAux [] data

/-- `ArrayMessage` is the reader instance with a 16-bit header and NUL
splitting of the body. -/
def ArrayMessage := Reader (List (List Nat))

/-- A fresh `ArrayMessage` with the given `setMaxSize` value (0 = the
default constructor, no ceiling). -/
def ArrayMessage.fresh (maxSize : Nat) : ArrayMessage :=
  Reader.fresh maxSize []

def ArrayMessage.feed (r : ArrayMessage) (data : List Nat) :
    ArrayMessage × Nat :=
  Reader.feed 2 ArrayMessage.parseBody r data

def ArrayMessage.feedMany (r : ArrayMessage) (cs : List (List Nat)) :
    ArrayMessage × Nat :=
  Reader.feedMany 2 ArrayMessage.parseBody r cs

/-- `ScalarMessage` is the reader instance with a 32-bit header and the body
taken verbatim as the value. -/
def ScalarMessage := Reader (List Nat)

/-- A fresh `ScalarMessage` with the given `maxSize` (0 = unlimited). -/
def ScalarMessage.fresh (maxSize : Nat) : ScalarMessage :=
  Reader.fresh maxSize []

def ScalarMessage.feed (r : ScalarMessage) (data : List Nat) :
    ScalarMessage × Nat :=
  Reader.feed 4 (fun b => b) r data

def ScalarMessage.feedMany (r : ScalarMessage) (cs : List (List Nat)) :
    ScalarMessage × Nat :=
  Reader.feedMany 4 (fun b => b) r cs

/-!
## Generators

The generator functions fill a caller-supplied array of views (`out`);
we model the produced views as a list of byte lists, in the order the C++
code stores them.  `ArgumentException` throws are modelled with `Except`.
The `outCount < outputSize(argsCount)` precondition of
`ArrayMessage::generate` is internalised by returning the view list itself. -/

/-- The view layout written by the loop in `ArrayMessage::generate`:
`out[1 + 2i] = args[i]`, `out[1 + 2i + 1] = "\0"`. -/
def interleaveNul : List (List Nat) → List (List Nat)
  | [] => []
  | a :: rest => a :: [0] :: interleaveNul rest

/-- `ArrayMessage::generate`: sum the item sizes plus one separator each in a
32-bit `unsigned int`, reject sums above the 16-bit ceiling, then emit the
2-byte big-endian header view followed by the interleaved item and NUL
views. -/
def ArrayMessage.generate (args : List (List Nat)) :
    Except String (List (List Nat)) :=
  let size := args.foldl (fun a x => (a + x.length + 1) % 2 ^ 32) 0
  if 0xFFFF < size then
    Except.error "Data size exceeds maximum size for array messages."
  else
    Except.ok (beBytes 2 size :: interleaveNul args)

/-- `ArrayMessage::outputSize`. -/
def ArrayMessage.outputSize (argsCount : Nat) : Nat := argsCount * 2 + 1

/-- The single-payload `ScalarMessage::generate`: 4-byte big-endian header
view followed by the payload view. -/
def ScalarMessage.generateOne (data : List Nat) :
    Except String (List (List Nat)) :=
  if 0xFFFFFFFF < data.length then
    Except.error "Data size exceeds maximum size for scalar messages."
  else
    Except.ok [beBytes 4 data.length, data]

/-- The per-fragment loop of the multi-fragment `ScalarMessage::generate`:
each fragment size is checked individually against the 32-bit ceiling, and
`totalSize` (a `uint32_t`) accumulates the sizes modulo `2^32`. -/
def scalarTotalSize : List (List Nat) → Nat → Except String Nat
  | [], acc => Except.ok acc
  | f :: fs, acc =>
    if 0xFFFFFFFF < f.length then
      Except.error "Data size exceeds maximum size for scalar messages."
    else
      scalarTotalSize fs ((acc + f.length) % 2 ^ 32)

/-- The multi-fragment `ScalarMessage::generate`: `count + 1` views, the
4-byte big-endian header carrying the 32-bit fragment-size sum followed by
the fragments in order. -/
def ScalarMessage.generateMulti (frags : List (List Nat)) :
    Except String (List (List Nat)) :=
  match scalarTotalSize frags 0 with
  | Except.error e => Except.error e
  | Except.ok totalSize => Except.ok (beBytes 4 totalSize :: frags)

/-!
## MultiLibeio dispatcher model

`MultiLibeio.cpp` bridges the libeio worker pool to a `SafeLibev` reactor.
The libeio engine itself is an external collaborator; its answer to a
submission call (`eio_open` / `eio_read` / `eio_write` / `eio_custom`) is a
request pointer or `NULL` and is passed to the model as a parameter.  The
observable side effects of one submission call are recorded as an event
trace. -/

inductive EioEvent where
  | ctxAllocated
  | submittedToEngine
  | ctxFreed
  | callbackInvoked
deriving Repr, DecidableEq

/-- The `MAKE_REQUEST` macro body, which is also the body of
`MultiLibeio::custom` (with `CustomData` instead of `Data`): allocate the
request context, hand it to the engine; if the engine returns `NULL`, delete
the context and return `NULL`, otherwise return the engine's request handle.
`MultiLibeio::open` and, on platforms with thread-safe `pread`/`pwrite`,
`MultiLibeio::read` and `MultiLibeio::write` expand to exactly this; on other
platforms `read`/`write` call `custom`, which is again this shape. -/
def MultiLibeio.submit (engineResult : Option Nat) :
    Option Nat × List EioEvent :=
  match engineResult with
  | none => (none, [EioEvent.ctxAllocated, EioEvent.ctxFreed])
  | some h => (some h, [EioEvent.ctxAllocated, EioEvent.submittedToEngine])

/-- The file-scope shared state of `MultiLibeio.cpp`: the `shouldPoll` flag,
the dispatch thread pointer `thr` (`none` = `NULL`), and the `quit` flag.
The mutex and condition variable only guard access and carry no value. -/
structure LibeioGlobals where
  shouldPoll : Bool
  thr : Option Unit
  quit : Bool
deriving Repr, DecidableEq

/-- The static initialisers: `shouldPoll = false`, `thr = NULL`,
`quit = false`. -/
def LibeioGlobals.startup : LibeioGlobals := ⟨false, none, false⟩

/-- Effect of `MultiLibeio::init` on the shared state: start the dispatch
thread (`thr = new oxt::thread(...)`).  `eio_init` registers `wantPoll` with
the engine and touches none of these variables. -/
def MultiLibeio.initOp (g : LibeioGlobals) : LibeioGlobals :=
  { g with thr := some () }

/-- `wantPoll`, invoked by the engine whenever it has work to drain: sets
`shouldPoll = true` (no code path ever resets it to `false`). -/
def MultiLibeio.wantPoll (g : LibeioGlobals) : LibeioGlobals :=
  { g with shouldPoll := true }

/-- Net effect of `MultiLibeio::shutdown` on the shared state: it sets
`quit = true`, wakes and joins the dispatch thread (`threadMain` reads but
never writes these variables), deletes it, and then sets `thr = NULL` and
`quit = false`.  `shouldPoll` is left untouched. -/
def MultiLibeio.shutdownOp (g : LibeioGlobals) : LibeioGlobals :=
  { g with thr := none, quit := false }

/-- Reachability invariant of a reader: in the header phase the header codec
is incomplete and nothing is buffered; in the body phase the header is
complete with a nonzero value and the buffer is strictly short of it. -/
def Reader.Inv (w : Nat) (r : Reader α) : Prop :=
  (r.state = RState.READING_HEADER →
    r.headerReader.acc.length < w ∧ r.buffer = []) ∧
  (r.state = RState.READING_BODY →
    r.headerReader.acc.length = w ∧ 0 < r.headerReader.val ∧
      r.buffer.length < r.headerReader.val)

/-- ​Normalisation quotienting out the two fields on which the zero-copy and
buffered paths legitimately differ once a message is complete: the result's
backing buffer tag, and the owned buffer contents after completion (the
zero-copy path leaves the buffer empty, the buffered path leaves the body in
it; neither is read again before `reset`). -/
def Reader.norm (r : Reader α) : Reader α :=
  { r with
      resultSource := Source.fromBuffer
      buffer := if r.done then [] else r.buffer }

theorem beBytes_length (w v : Nat) : (beBytes w v).length = w := by
  induction w generalizing v with
  | zero => rfl
  | succ w ih => simp [beBytes, ih]

theorem beVal_append_last (l : List Nat) (x : Nat) :
    beVal (l ++ [x]) = beVal l * 256 + x := by
  simp [beVal, List.foldl_append]

theorem beVal_beBytes (w v : Nat) : beVal (beBytes w v) = v % 256 ^ w := by
  induction w generalizing v with
  | zero => simp [beBytes, beVal, Nat.mod_one]
  | succ w ih =>
      rw [beBytes, beVal_append_last, ih, pow_succ,
        mul_comm (256 ^ w) 256, Nat.mod_mul]
      ring

/-!
## Helper lemmas: NUL splitting
-/

theorem parseBodyAux_no_nul (t : List Nat) (cur : List Nat) (h : 0 ∉ t) :
    parseBodyAux cur t = [] := by
  induction t generalizing cur with
  | nil => rfl
  | cons b rest ih =>
      have hb : b ≠ 0 := fun hb => h (hb ▸ List.mem_cons_self b rest)
      have hrest : 0 ∉ rest := fun hr => h (List.mem_cons_of_mem b hr)
      simp [parseBodyAux, hb, ih _ hrest]

theorem parseBodyAux_field (f : List Nat) (hf : 0 ∉ f) (cur t : List Nat) :
    parseBodyAux cur (f ++ 0 :: t) = (cur ++ f) :: parseBodyAux [] t := by
  induction f generalizing cur with
  | nil => simp [parseBodyAux]
  | cons b fs ih =>
      have hb : b ≠ 0 := fun hb => hf (hb ▸ List.mem_cons_self b fs)
      have hfs : 0 ∉ fs := fun hr => hf (List.mem_cons_of_mem b hr)
      simp [parseBodyAux, hb, ih hfs]

/-- Splitting the concatenation of NUL-terminated fields followed by a
NUL-free trailing run recovers exactly the fields. -/
theorem parseBody_encode (fields : List (List Nat)) (tail : List Nat)
    (hf : ∀ f ∈ fields, 0 ∉ f) (ht : 0 ∉ tail) :
    ArrayMessage.parseBody ((fields.map (fun f => f ++ [0])).flatten ++ tail) =
      fields := by
  induction fields with
  | nil => simpa [ArrayMessage.parseBody] using parseBodyAux_no_nul tail [] ht
  | cons f fs ih =>
      have hf0 : 0 ∉ f := hf f (List.mem_cons_self f fs)
      have hfs : ∀ g ∈ fs, 0 ∉ g := fun g hg => hf g (List.mem_cons_of_mem f hg)
      have : (((f :: fs).map (fun f => f ++ [0])).flatten ++ tail) =
          f ++ 0 :: ((fs.map (fun f => f ++ [0])).flatten ++ tail) := by
        simp
      rw [ArrayMessage.parseBody, this, parseBodyAux_field f hf0 [] _]
      simpa [ArrayMessage.parseBody] using ih hfs

/-- C5: the full array body is split on NUL separators into an ordered list
of fields, and a trailing run not terminated by a NUL is dropped:
`"a\0b\0c\0"` decodes to `["a","b","c"]`, `"a\0b\0c"` decodes to
`["a","b"]` with `"c"` dropped, and in general decoding the concatenation of
NUL-terminated fields plus an unterminated NUL-free trailing run yields
exactly the terminated fields. -/
theorem C5_parseBody_drops_unterminated :
    ArrayMessage.parseBody [97, 0, 98, 0, 99, 0] = [[97], [98], [99]] ∧
    ArrayMessage.parseBody [97, 0, 98, 0, 99] = [[97], [98]] ∧
    ∀ (fields : List (List Nat)) (tail : List Nat),
      (∀ f ∈ fields, 0 ∉ f) → 0 ∉ tail →
      ArrayMessage.parseBody ((fields.map (fun f => f ++ [0])).flatten ++ tail) =
        fields :=
  ⟨by decide, by decide, parseBody_encode⟩

theorem C5_parseBody_witness :
    ((∀ f ∈ [[97]], (0 : Nat) ∉ f) ∧ (0 : Nat) ∉ [99]) ∧
    ArrayMessage.parseBody (([[97]].map (fun f => f ++ [0])).flatten ++ [99]) =
      [[97]] :=
  ⟨⟨by decide, by decide⟩,
   C5_parseBody_drops_unterminated.2.2 [[97]] [99] (by decide) (by decide)⟩

/-!
## C7: multi-fragment scalar generation
-/

theorem scalarTotalSize_ok (frags : List (List Nat)) (acc : Nat)
    (hacc : acc < 2 ^ 32) (h : ∀ f ∈ frags, f.length ≤ 0xFFFFFFFF) :
    scalarTotalSize frags acc =
      Except.ok ((acc + (frags.map List.length).sum) % 2 ^ 32) := by
  induction frags generalizing acc with
  | nil =>
      rw [scalarTotalSize]
      congr 1
      simp
      omega
  | cons f fs ih =>
      have hfl : ¬ 0xFFFFFFFF < f.length := by
        exact not_lt.mpr (h f (List.mem_cons_self f fs))
      have hfs : ∀ g ∈ fs, g.length ≤ 0xFFFFFFFF :=
        fun g hg => h g (List.mem_cons_of_mem f hg)
      rw [scalarTotalSize, if_neg hfl, ih _ (Nat.mod_lt _ (by norm_num)) hfs]
      rw [Nat.mod_add_mod]
      simp only [List.map_cons, List.sum_cons]
      congr 1
      omega

theorem scalarTotalSize_err (frags : List (List Nat)) (acc : Nat)
    (h : ∃ f ∈ frags, 0xFFFFFFFF < f.length) :
    scalarTotalSize frags acc =
      Except.error "Data size exceeds maximum size for scalar messages." := by
  induction frags generalizing acc with
  | nil => simp at h
  | cons f fs ih =>
      by_cases hf : 0xFFFFFFFF < f.length
      · rw [scalarTotalSize, if_pos hf]
      · rw [scalarTotalSize, if_neg hf]
        apply ih
        rcases h with ⟨g, hg, hgl⟩
        rcases List.mem_cons.mp hg with hgf | hgfs
        · exact absurd (hgf ▸ hgl) hf
        · exact ⟨g, hgfs, hgl⟩

/-- C7: the multi-fragment `ScalarMessage::generate` throws exactly when some
fragment is individually larger than the 32-bit ceiling; otherwise it
produces `count + 1` views, a 4-byte big-endian header carrying the fragment
length sum reduced modulo `2^32` (the sum itself is never checked against the
ceiling) followed by the fragments in their given order. -/
theorem C7_generateMulti (frags : List (List Nat)) :
    ((∃ f ∈ frags, 0xFFFFFFFF < f.length) ↔
      ScalarMessage.generateMulti frags =
        Except.error "Data size exceeds maximum size for scalar messages.") ∧
    ((∀ f ∈ frags, f.length ≤ 0xFFFFFFFF) →
      ScalarMessage.generateMulti frags =
        Except.ok
          (beBytes 4 (((frags.map List.length).sum) % 2 ^ 32) :: frags)) ∧
    (∀ out, ScalarMessage.generateMulti frags = Except.ok out →
      out.length = frags.length + 1) := by
  refine ⟨⟨fun h => ?_, fun h => ?_⟩, fun h => ?_, fun out h => ?_⟩
  · rw [ScalarMessage.generateMulti, scalarTotalSize_err frags 0 h]
  · by_cases hall : ∀ f ∈ frags, f.length ≤ 0xFFFFFFFF
    · rw [ScalarMessage.generateMulti,
        scalarTotalSize_ok frags 0 (by norm_num) hall] at h
      exact Except.noConfusion h
    · push_neg at hall
      exact hall
  · rw [ScalarMessage.generateMulti,
      scalarTotalSize_ok frags 0 (by norm_num) h]
    simp
  · rw [ScalarMessage.generateMulti] at h
    cases hts : scalarTotalSize frags 0 with
    | error e => rw [hts] at h; exact Except.noConfusion h
    | ok ts =>
        rw [hts] at h
        have : beBytes 4 ts :: frags = out := by
          simpa using h
        simp [← this]

theorem C7_generateMulti_witness :
    (∀ f ∈ [[1], [2, 3]], List.length f ≤ 0xFFFFFFFF) ∧
    ScalarMessage.generateMulti [[1], [2, 3]] =
      Except.ok
        (beBytes 4 ((([[1], [2, 3]].map List.length).sum) % 2 ^ 32) ::
          [[1], [2, 3]]) :=
  ⟨by decide, (C7_generateMulti [[1], [2, 3]]).2.1 (by decide)⟩

/-!
## C9: submission failure handling
-/

/-- C9: if the engine does not accept a submission, the call synchronously
returns `NULL`, the freshly allocated request context is freed immediately,
and no completion callback is ever invoked for it; if the engine accepts, the
call returns the engine's non-`NULL` request handle and the context has been
handed to the engine. -/
theorem C9_submit_failure_is_synchronous :
    MultiLibeio.submit none =
      (none, [EioEvent.ctxAllocated, EioEvent.ctxFreed]) ∧
    (∀ h : Nat,
      MultiLibeio.submit (some h) =
        (some h, [EioEvent.ctxAllocated, EioEvent.submittedToEngine])) ∧
    (∀ er : Option Nat, EioEvent.callbackInvoked ∉ (MultiLibeio.submit er).2) ∧
    (∀ er : Option Nat,
      (MultiLibeio.submit er).1 = none ↔ er = none) := by
  refine ⟨rfl, fun h => rfl, fun er => ?_, fun er => ?_⟩
  · cases er <;> simp [MultiLibeio.submit]
  · cases er <;> simp [MultiLibeio.submit]

/-!
## C10: dispatcher lifecycle
-/

/-- C10 counterexample: after `init()`, one `wantPoll` wake from the engine
and `shutdown()`, the shared state is not the pre-`init` state: `shouldPoll`
is still `true`. -/
theorem C10_shouldPoll_not_restored :
    MultiLibeio.shutdownOp
        (MultiLibeio.wantPoll (MultiLibeio.initOp LibeioGlobals.startup)) ≠
      LibeioGlobals.startup := by
  decide

/-- C10 (amended): `shutdown()` restores the dispatch thread handle and the
shutdown-requested flag to their pre-`init` values (`NULL` and `false`), but
leaves the poll-requested flag `shouldPoll` unchanged, so it stays `true`
whenever any poll was requested during the cycle. -/
theorem C10_shutdown_restores_thr_and_quit (g : LibeioGlobals) :
    (MultiLibeio.shutdownOp g).thr = LibeioGlobals.startup.thr ∧
    (MultiLibeio.shutdownOp g).quit = LibeioGlobals.startup.quit ∧
    (MultiLibeio.shutdownOp g).shouldPoll = g.shouldPoll ∧
    MultiLibeio.shutdownOp (MultiLibeio.wantPoll g) =
      { g with shouldPoll := true, thr := none, quit := false } :=
  ⟨rfl, rfl, rfl, rfl⟩

/-!
## Header feeding lemmas (used for C2 and C3)
-/

/-- Feeding a full `w`-byte big-endian header (plus anything after it) to a
fresh integer codec consumes exactly the `w` header bytes and decodes `v`. -/
theorem UintMessage.feed_start_full (w v : Nat) (hw : 0 < w)
    (hv : v < 256 ^ w) (rest : List Nat) :
    UintMessage.feed w UintMessage.start (beBytes w v ++ rest) =
      (⟨beBytes w v, v⟩, w) := by
  have hL : (beBytes w v).length = w := beBytes_length w v
  simp only [UintMessage.feed, UintMessage.start]
  have hmin : min (beBytes w v ++ rest).length (w - ([] : List Nat).length) =
      w := by
    simp [hL]
  rw [hmin, List.nil_append, List.take_left' hL]
  simp [hL, hw, beVal_beBytes, Nat.mod_eq_of_lt hv]

/-- Feeding a fresh reader a chunk whose header value exceeds a positive
ceiling: the reader moves to `ERROR` after consuming exactly the header
bytes. -/
theorem Reader.feed_fresh_header_err {α : Type} (w : Nat)
    (parse : List Nat → α) (a0 : α) (m v : Nat) (hw : 0 < w)
    (hv : v < 256 ^ w) (rest : List Nat) (hm : 0 < m ∧ m < v) :
    Reader.feed w parse (Reader.fresh m a0) (beBytes w v ++ rest) =
      (⟨RState.ERROR, TOO_LARGE, m, ⟨beBytes w v, v⟩, [], a0,
        Source.fromBuffer⟩, w) := by
  have hL : (beBytes w v).length = w := beBytes_length w v
  have h0 : ¬ ((beBytes w v ++ rest).length = 0 ∨
      (Reader.fresh m a0).done = true) := by
    simp [Reader.done, Reader.fresh, hL]
    omega
  rw [Reader.feed, if_neg h0]
  show Reader.headerStep w parse (Reader.fresh m a0) (beBytes w v ++ rest) = _
  simp only [Reader.headerStep, Reader.fresh]
  rw [UintMessage.feed_start_full w v hw hv rest]
  simp [Reader.fresh, hL, hm]

/-- Feeding a fresh reader a chunk with a zero header value: the reader is
immediately `DONE` with the default (empty) result after consuming exactly
the header bytes. -/
theorem Reader.feed_fresh_header_zero {α : Type} (w : Nat)
    (parse : List Nat → α) (a0 : α) (m : Nat) (hw : 0 < w)
    (rest : List Nat) :
    Reader.feed w parse (Reader.fresh m a0) (beBytes w 0 ++ rest) =
      (⟨RState.DONE, 0, m, ⟨beBytes w 0, 0⟩, [], a0,
        Source.fromBuffer⟩, w) := by
  have hL : (beBytes w 0).length = w := beBytes_length w 0
  have h0 : ¬ ((beBytes w 0 ++ rest).length = 0 ∨
      (Reader.fresh m a0).done = true) := by
    simp [Reader.done, Reader.fresh, hL]
    omega
  rw [Reader.feed, if_neg h0]
  show Reader.headerStep w parse (Reader.fresh m a0) (beBytes w 0 ++ rest) = _
  simp only [Reader.headerStep, Reader.fresh]
  rw [UintMessage.feed_start_full w 0 hw (Nat.pos_pow_of_pos w (by norm_num))
    rest]
  simp [Reader.fresh, hL]

/-- Feeding a fresh reader exactly the header bytes of a nonzero value below
any configured ceiling: the reader enters the body phase having consumed the
header. -/
theorem Reader.feed_fresh_header_body {α : Type} (w : Nat)
    (parse : List Nat → α) (a0 : α) (m v : Nat) (hw : 0 < w)
    (hv : v < 256 ^ w) (hmv : ¬ (0 < m ∧ m < v)) (hv0 : v ≠ 0) :
    Reader.feed w parse (Reader.fresh m a0) (beBytes w v) =
      (⟨RState.READING_BODY, 0, m, ⟨beBytes w v, v⟩, [], a0,
        Source.fromBuffer⟩, w) := by
  have hL : (beBytes w v).length = w := beBytes_length w v
  have h0 : ¬ ((beBytes w v).length = 0 ∨
      (Reader.fresh m a0).done = true) := by
    simp [Reader.done, Reader.fresh, hL]
    omega
  rw [Reader.feed, if_neg h0]
  show Reader.headerStep w parse (Reader.fresh m a0) (beBytes w v) = _
  simp only [Reader.headerStep, Reader.fresh]
  have hfull := UintMessage.feed_start_full w v hw hv []
  rw [List.append_nil] at hfull
  rw [hfull]
  simp [Reader.fresh, hL, hmv, hv0]

/-- Feeding a fresh reader a chunk holding the full header (nonzero value
below the ceiling) plus further bytes: the reader consumes the header and
runs the body arm on the remaining bytes in the same call. -/
theorem Reader.feed_fresh_header_cons {α : Type} (w : Nat)
    (parse : List Nat → α) (a0 : α) (m v : Nat) (hw : 0 < w)
    (hv : v < 256 ^ w) (hmv : ¬ (0 < m ∧ m < v)) (hv0 : v ≠ 0)
    (rest : List Nat) (hr : rest ≠ []) :
    Reader.feed w parse (Reader.fresh m a0) (beBytes w v ++ rest) =
      ((Reader.bodyStep parse
          ⟨RState.READING_BODY, 0, m, ⟨beBytes w v, v⟩, [], a0,
            Source.fromBuffer⟩ rest).1,
       w + (Reader.bodyStep parse
          ⟨RState.READING_BODY, 0, m, ⟨beBytes w v, v⟩, [], a0,
            Source.fromBuffer⟩ rest).2) := by
  have hL : (beBytes w v).length = w := beBytes_length w v
  have h0 : ¬ ((beBytes w v ++ rest).length = 0 ∨
      (Reader.fresh m a0).done = true) := by
    simp [Reader.done, Reader.fresh, hL]
    omega
  rw [Reader.feed, if_neg h0]
  show Reader.headerStep w parse (Reader.fresh m a0) (beBytes w v ++ rest) = _
  simp only [Reader.headerStep, Reader.fresh]
  rw [UintMessage.feed_start_full w v hw hv rest]
  have hlt : w < (beBytes w v ++ rest).length := by
    have : rest.length ≠ 0 := fun h => hr (List.length_eq_zero.mp h)
    simp [hL]
    omega
  simp [Reader.fresh, hL, hmv, hv0, hlt, List.drop_left' hL]
  exact fun h => absurd h hr

/-!
## C3: ceiling enforcement at header completion
-/

/-- C3: with a ceiling `m > 0` configured via `setMaxSize`, a header equal to
`m` completes without error and parsing proceeds to the body phase, while a
header equal to `m + 1` puts the reader in the `ERROR` state with error code
`TOO_LARGE` at header completion; the body phase is never entered and the
call that completes the header consumes exactly the header bytes, no matter
how many further input bytes follow in the chunk.  Stated for both
`ArrayMessage` (16-bit header) and `ScalarMessage` (32-bit header). -/
theorem C3_ceiling_boundary (m : Nat) (extra : List Nat) :
    (0 < m → m + 1 ≤ 0xFFFF →
      (ArrayMessage.feed (ArrayMessage.fresh m) (beBytes 2 m)).1.state =
        RState.READING_BODY ∧
      (ArrayMessage.feed (ArrayMessage.fresh m) (beBytes 2 m)).1.hasError =
        false ∧
      (ArrayMessage.feed (ArrayMessage.fresh m)
        (beBytes 2 (m + 1) ++ extra)).1.state = RState.ERROR ∧
      (ArrayMessage.feed (ArrayMessage.fresh m)
        (beBytes 2 (m + 1) ++ extra)).1.errorCode = TOO_LARGE ∧
      (ArrayMessage.feed (ArrayMessage.fresh m)
        (beBytes 2 (m + 1) ++ extra)).2 = 2) ∧
    (0 < m → m + 1 ≤ 0xFFFFFFFF →
      (ScalarMessage.feed (ScalarMessage.fresh m) (beBytes 4 m)).1.state =
        RState.READING_BODY ∧
      (ScalarMessage.feed (ScalarMessage.fresh m) (beBytes 4 m)).1.hasError =
        false ∧
      (ScalarMessage.feed (ScalarMessage.fresh m)
        (beBytes 4 (m + 1) ++ extra)).1.state = RState.ERROR ∧
      (ScalarMessage.feed (ScalarMessage.fresh m)
        (beBytes 4 (m + 1) ++ extra)).1.errorCode = TOO_LARGE ∧
      (ScalarMessage.feed (ScalarMessage.fresh m)
        (beBytes 4 (m + 1) ++ extra)).2 = 4) := by
  constructor
  · intro hm hb
    simp only [ArrayMessage.feed, ArrayMessage.fresh]
    rw [Reader.feed_fresh_header_body 2 ArrayMessage.parseBody [] m m
        (by norm_num) (by norm_num; omega) (by omega) (by omega),
      Reader.feed_fresh_header_err 2 ArrayMessage.parseBody [] m (m + 1)
        (by norm_num) (by norm_num; omega) extra (by omega)]
    simp [Reader.hasError, Reader.errorCode]
  · intro hm hb
    simp only [ScalarMessage.feed, ScalarMessage.fresh]
    rw [Reader.feed_fresh_header_body 4 (fun b => b) [] m m
        (by norm_num) (by norm_num; omega) (by omega) (by omega),
      Reader.feed_fresh_header_err 4 (fun b => b) [] m (m + 1)
        (by norm_num) (by norm_num; omega) extra (by omega)]
    simp [Reader.hasError, Reader.errorCode]

/-- While the reader is in the body phase, a `feed` call with a nonempty
chunk is exactly one run of the body arm. -/
theorem Reader.feed_body {α : Type} (w : Nat) (parse : List Nat → α)
    (r : Reader α) (data : List Nat) (hstate : r.state = RState.READING_BODY)
    (hne : data ≠ []) :
    Reader.feed w parse r data = Reader.bodyStep parse r data := by
  have h0 : ¬ (data.length = 0 ∨ r.done = true) := by
    simp [Reader.done, hstate, List.length_eq_zero]
    exact hne
  rw [Reader.feed, if_neg h0, hstate]

/-!
## C4: zero-copy versus buffered body completion
-/

/-- C4: while a reader is in `READING_BODY`, if its owned buffer is empty and
the current chunk holds at least the header's target length, the reader
reaches `DONE` with a result borrowing directly from the caller's chunk (the
first `target` bytes of it), nothing is appended to the owned buffer, and
exactly the `target` bytes are consumed; otherwise it appends up to the still
needed bytes from the chunk to the owned buffer, and it reaches `DONE`
exactly when the owned buffer's length reaches the target, the result then
borrowing the owned buffer.  This is the shared body arm of
`ArrayMessage::feed` and `ScalarMessage::feed` (`Reader.feed` instantiated
by both). -/
theorem C4_body_zero_copy_or_buffered {α : Type} (w : Nat)
    (parse : List Nat → α) (r : Reader α) (data : List Nat)
    (hstate : r.state = RState.READING_BODY)
    (hlt : r.buffer.length < r.headerReader.val)
    (hne : data ≠ []) :
    (r.buffer = [] ∧ r.headerReader.val ≤ data.length →
      (Reader.feed w parse r data).1.state = RState.DONE ∧
      (Reader.feed w parse r data).1.resultSource = Source.fromInput ∧
      (Reader.feed w parse r data).1.result =
        parse (data.take r.headerReader.val) ∧
      (Reader.feed w parse r data).1.buffer = [] ∧
      (Reader.feed w parse r data).2 = r.headerReader.val) ∧
    (¬ (r.buffer = [] ∧ r.headerReader.val ≤ data.length) →
      (Reader.feed w parse r data).1.buffer =
        r.buffer ++
          data.take (min data.length (r.headerReader.val - r.buffer.length)) ∧
      (Reader.feed w parse r data).2 =
        min data.length (r.headerReader.val - r.buffer.length) ∧
      ((Reader.feed w parse r data).1.state = RState.DONE ↔
        (Reader.feed w parse r data).1.buffer.length = r.headerReader.val) ∧
      ((Reader.feed w parse r data).1.state = RState.DONE →
        (Reader.feed w parse r data).1.resultSource = Source.fromBuffer ∧
        (Reader.feed w parse r data).1.result =
          parse (Reader.feed w parse r data).1.buffer)) := by
  rw [Reader.feed_body w parse r data hstate hne]
  constructor
  · rintro ⟨hb, hv⟩
    rw [Reader.bodyStep]
    simp [hb, hv]
  · intro hcond
    rw [Reader.bodyStep]
    simp only [if_neg hcond]
    by_cases hdone :
        r.buffer.length +
          min data.length (r.headerReader.val - r.buffer.length) =
          r.headerReader.val
    · simp [hdone, List.length_append, List.length_take]
    · simp [hdone, hstate, List.length_append, List.length_take]

theorem C4_body_witness :
    ((⟨RState.READING_BODY, 0, 0, ⟨[0, 0, 0, 3], 3⟩, [], [], Source.fromBuffer⟩ :
        Reader (List Nat)).state = RState.READING_BODY ∧
      (⟨RState.READING_BODY, 0, 0, ⟨[0, 0, 0, 3], 3⟩, [], [],
        Source.fromBuffer⟩ : Reader (List Nat)).buffer.length <
        (⟨RState.READING_BODY, 0, 0, ⟨[0, 0, 0, 3], 3⟩, [], [],
          Source.fromBuffer⟩ : Reader (List Nat)).headerReader.val ∧
      ([7, 8, 9, 10] : List Nat) ≠ []) ∧
    ((⟨RState.READING_BODY, 0, 0, ⟨[0, 0, 0, 3], 3⟩, [], [],
        Source.fromBuffer⟩ : Reader (List Nat)).buffer = [] ∧
      (⟨RState.READING_BODY, 0, 0, ⟨[0, 0, 0, 3], 3⟩, [], [],
        Source.fromBuffer⟩ : Reader (List Nat)).headerReader.val ≤
        ([7, 8, 9, 10] : List Nat).length →
      (Reader.feed 4 (fun b => b)
        (⟨RState.READING_BODY, 0, 0, ⟨[0, 0, 0, 3], 3⟩, [], [],
          Source.fromBuffer⟩ : Reader (List Nat)) [7, 8, 9, 10]).1.state =
        RState.DONE ∧
      (Reader.feed 4 (fun b => b)
        (⟨RState.READING_BODY, 0, 0, ⟨[0, 0, 0, 3], 3⟩, [], [],
          Source.fromBuffer⟩ : Reader (List Nat))
        [7, 8, 9, 10]).1.resultSource = Source.fromInput ∧
      (Reader.feed 4 (fun b => b)
        (⟨RState.READING_BODY, 0, 0, ⟨[0, 0, 0, 3], 3⟩, [], [],
          Source.fromBuffer⟩ : Reader (List Nat)) [7, 8, 9, 10]).1.result =
        (fun b => b) (([7, 8, 9, 10] : List Nat).take
          (⟨RState.READING_BODY, 0, 0, ⟨[0, 0, 0, 3], 3⟩, [], [],
            Source.fromBuffer⟩ : Reader (List Nat)).headerReader.val) ∧
      (Reader.feed 4 (fun b => b)
        (⟨RState.READING_BODY, 0, 0, ⟨[0, 0, 0, 3], 3⟩, [], [],
          Source.fromBuffer⟩ : Reader (List Nat)) [7, 8, 9, 10]).1.buffer =
        [] ∧
      (Reader.feed 4 (fun b => b)
        (⟨RState.READING_BODY, 0, 0, ⟨[0, 0, 0, 3], 3⟩, [], [],
          Source.fromBuffer⟩ : Reader (List Nat)) [7, 8, 9, 10]).2 =
        (⟨RState.READING_BODY, 0, 0, ⟨[0, 0, 0, 3], 3⟩, [], [],
          Source.fromBuffer⟩ : Reader (List Nat)).headerReader.val) :=
  ⟨⟨by decide, by decide, by decide⟩,
   (C4_body_zero_copy_or_buffered 4 (fun b => b)
      ⟨RState.READING_BODY, 0, 0, ⟨[0, 0, 0, 3], 3⟩, [], [], Source.fromBuffer⟩
      [7, 8, 9, 10] (by decide) (by decide) (by decide)).1⟩

theorem C3_ceiling_witness :
    ((0 < 5 ∧ 5 + 1 ≤ 0xFFFF) ∧ (0 < 5 ∧ 5 + 1 ≤ 0xFFFFFFFF)) ∧
    (ArrayMessage.feed (ArrayMessage.fresh 5)
      (beBytes 2 (5 + 1) ++ [1, 2, 3])).1.state = RState.ERROR ∧
    (ArrayMessage.feed (ArrayMessage.fresh 5)
      (beBytes 2 (5 + 1) ++ [1, 2, 3])).2 = 2 ∧
    (ScalarMessage.feed (ScalarMessage.fresh 5)
      (beBytes 4 5)).1.state = RState.READING_BODY :=
  ⟨⟨⟨by decide, by decide⟩, ⟨by decide, by decide⟩⟩,
   ((C3_ceiling_boundary 5 [1, 2, 3]).1 (by decide) (by decide)).2.2.1,
   ((C3_ceiling_boundary 5 [1, 2, 3]).1 (by decide) (by decide)).2.2.2.2,
   ((C3_ceiling_boundary 5 [1, 2, 3]).2 (by decide) (by decide)).1⟩

/-!
## Composition of feeds (fragmentation independence machinery)
-/

/-- Feeding `a ++ b` to the integer codec equals feeding `a` and then `b`,
with consumed counts adding up. -/
theorem UintMessage.feed_split (w : Nat) (m : UintMessage) (a b : List Nat) :
    UintMessage.feed w m (a ++ b) =
      ((UintMessage.feed w (UintMessage.feed w m a).1 b).1,
       (UintMessage.feed w m a).2 +
         (UintMessage.feed w (UintMessage.feed w m a).1 b).2) := by
  simp only [UintMessage.feed]
  have hk1 : (a.take (min a.length (w - m.acc.length))).length =
      min a.length (w - m.acc.length) := by
    simp
  have hlen1 : (m.acc ++ a.take (min a.length (w - m.acc.length))).length =
      m.acc.length + min a.length (w - m.acc.length) := by
    simp [hk1]
  have hcc : min (a ++ b).length (w - m.acc.length) =
      min a.length (w - m.acc.length) +
        min b.length
          (w - (m.acc ++ a.take (min a.length (w - m.acc.length))).length) := by
    rw [hlen1, List.length_append]
    omega
  have haccC : m.acc ++ (a ++ b).take (min (a ++ b).length (w - m.acc.length)) =
      m.acc ++ a.take (min a.length (w - m.acc.length)) ++
        b.take (min b.length
          (w - (m.acc ++ a.take (min a.length (w - m.acc.length))).length)) := by
    rw [List.take_append_eq_append_take, List.append_assoc]
    congr 1
    congr 1
    · rw [List.take_eq_take]
      simp [List.length_append]
      omega
    · congr 1
      rw [hlen1, List.length_append]
      omega
  have hlen2 : (m.acc ++ a.take (min a.length (w - m.acc.length)) ++
      b.take (min b.length
        (w - (m.acc ++ a.take (min a.length (w - m.acc.length))).length))).length
      = m.acc.length + min a.length (w - m.acc.length) +
        min b.length
          (w - (m.acc.length + min a.length (w - m.acc.length))) := by
    simp [hk1]
    omega
  rw [Prod.mk.injEq, UintMessage.mk.injEq]
  refine ⟨⟨haccC, ?_⟩, hcc⟩
  rw [haccC, hcc, hlen1]
  by_cases hA : 0 < min b.length (w - (m.acc.length +
      min a.length (w - m.acc.length)))
  · by_cases hB : (m.acc ++ a.take (min a.length (w - m.acc.length)) ++
        b.take (min b.length
          (w - (m.acc.length + min a.length (w - m.acc.length))))).length = w
    · have h1 : 0 < min a.length (w - m.acc.length) +
          min b.length (w - (m.acc.length +
            min a.length (w - m.acc.length))) := by omega
      simp only [if_pos (And.intro h1 hB), if_pos (And.intro hA hB)]
    · have h2 : ¬ (0 < min a.length (w - m.acc.length) +
          min b.length (w - (m.acc.length +
            min a.length (w - m.acc.length))) ∧
          (m.acc ++ a.take (min a.length (w - m.acc.length)) ++
            b.take (min b.length
              (w - (m.acc.length +
                min a.length (w - m.acc.length))))).length = w) := by
        intro hcontra
        exact hB hcontra.2
      have h3 : ¬ (0 < min b.length (w - (m.acc.length +
          min a.length (w - m.acc.length))) ∧
          (m.acc ++ a.take (min a.length (w - m.acc.length)) ++
            b.take (min b.length
              (w - (m.acc.length +
                min a.length (w - m.acc.length))))).length = w) := by
        intro hcontra
        exact hB hcontra.2
      rw [if_neg h2, if_neg h3]
      have h4 : ¬ (0 < min a.length (w - m.acc.length) ∧
          m.acc.length + min a.length (w - m.acc.length) = w) := by
        intro hcontra
        omega
      rw [if_neg h4]
  · have hc2 : min b.length (w - (m.acc.length +
        min a.length (w - m.acc.length))) = 0 := by omega
    rw [hc2]
    simp [hlen1]

theorem Reader.feed_nil {α : Type} (w : Nat) (parse : List Nat → α)
    (r : Reader α) : Reader.feed w parse r [] = (r, 0) := by
  simp [Reader.feed]

theorem Reader.feed_of_done {α : Type} (w : Nat) (parse : List Nat → α)
    (r : Reader α) (data : List Nat) (h : r.done = true) :
    Reader.feed w parse r data = (r, 0) := by
  rw [Reader.feed, if_pos (Or.inr h)]

/-- Composition of feeds while in the body phase: feeding `x ++ y` is the
same (modulo `norm`) as feeding `x` and then `y`, and the consumed counts
add up. -/
theorem Reader.feed_append_body {α : Type} (w : Nat) (parse : List Nat → α)
    (r : Reader α) (x y : List Nat)
    (hstate : r.state = RState.READING_BODY)
    (hv : 0 < r.headerReader.val)
    (hblt : r.buffer.length < r.headerReader.val) :
    (Reader.feed w parse r (x ++ y)).1.norm =
      (Reader.feed w parse (Reader.feed w parse r x).1 y).1.norm ∧
    (Reader.feed w parse r (x ++ y)).2 =
      (Reader.feed w parse r x).2 +
        (Reader.feed w parse (Reader.feed w parse r x).1 y).2 := by
  by_cases hx : x = []
  · subst hx
    rw [List.nil_append, Reader.feed_nil]
    exact ⟨rfl, by simp⟩
  by_cases hy : y = []
  · subst hy
    rw [List.append_nil, Reader.feed_nil]
    exact ⟨rfl, by simp⟩
  have hxy : x ++ y ≠ [] := by simp [hx]
  have hxl : 0 < x.length := List.length_pos.mpr hx
  have hyl : 0 < y.length := List.length_pos.mpr hy
  have hbl0 : r.buffer = [] → r.buffer.length = 0 := by
    intro h
    rw [h]
    rfl
  have htakeLe : ∀ n, n ≤ x.length → (x ++ y).take n = x.take n := by
    intro n hn
    rw [List.take_append_eq_append_take, Nat.sub_eq_zero_of_le hn,
      List.take_zero, List.append_nil]
  have htakeGe : ∀ n, x.length ≤ n →
      (x ++ y).take n = x ++ y.take (n - x.length) := by
    intro n hn
    rw [List.take_append_eq_append_take, List.take_of_length_le hn]
  rw [Reader.feed_body w parse r (x ++ y) hstate hxy,
    Reader.feed_body w parse r x hstate hx]
  by_cases hbe : r.buffer = []
  · by_cases h1 : r.headerReader.val ≤ x.length
    · -- S1: zero-copy already within x
      have hcomb : Reader.bodyStep parse r (x ++ y) =
          ({ r with
              state := RState.DONE
              result := parse ((x ++ y).take r.headerReader.val)
              resultSource := Source.fromInput }, r.headerReader.val) := by
        simp only [Reader.bodyStep]
        rw [if_pos ⟨hbe, by simp [List.length_append]; omega⟩]
      have hfirst : Reader.bodyStep parse r x =
          ({ r with
              state := RState.DONE
              result := parse (x.take r.headerReader.val)
              resultSource := Source.fromInput }, r.headerReader.val) := by
        simp only [Reader.bodyStep]
        rw [if_pos ⟨hbe, h1⟩]
      rw [hcomb, hfirst,
        Reader.feed_of_done w parse _ y (by simp [Reader.done])]
      exact ⟨by rw [htakeLe _ h1], by simp⟩
    · push_neg at h1
      by_cases h2 : r.headerReader.val ≤ x.length + y.length
      · -- S2: zero-copy over x ++ y, buffered sequentially
        have hcomb : Reader.bodyStep parse r (x ++ y) =
            ({ r with
                state := RState.DONE
                result := parse ((x ++ y).take r.headerReader.val)
                resultSource := Source.fromInput }, r.headerReader.val) := by
          simp only [Reader.bodyStep]
          rw [if_pos ⟨hbe, by simp [List.length_append]; omega⟩]
        have hfirst : Reader.bodyStep parse r x =
            ({ r with buffer := r.buffer ++ x }, x.length) := by
          simp only [Reader.bodyStep]
          rw [if_neg (fun hc => absurd hc.2 (not_le.mpr h1))]
          have htc : min x.length (r.headerReader.val - r.buffer.length) =
              x.length := by
            have := hbl0 hbe
            omega
          rw [htc, List.take_length,
            if_neg (by simp [List.length_append, hbl0 hbe]; omega)]
        rw [hcomb, hfirst,
          Reader.feed_body w parse ({ r with buffer := r.buffer ++ x }) y
            (by exact hstate) hy]
        have hbne : ({ r with buffer := r.buffer ++ x } :
            Reader α).buffer ≠ [] := by
          simp [hx]
        have hsecond : Reader.bodyStep parse
            ({ r with buffer := r.buffer ++ x }) y =
            ({ r with
                state := RState.DONE
                buffer := (r.buffer ++ x) ++
                  y.take (r.headerReader.val - x.length)
                result := parse ((r.buffer ++ x) ++
                  y.take (r.headerReader.val - x.length))
                resultSource := Source.fromBuffer },
             r.headerReader.val - x.length) := by
          simp only [Reader.bodyStep]
          rw [if_neg (fun hc => absurd hc.1 hbne)]
          have htc2 : min y.length (r.headerReader.val -
              (r.buffer ++ x).length) = r.headerReader.val - x.length := by
            simp [List.length_append, hbl0 hbe]
            omega
          rw [htc2,
            if_pos (by simp [List.length_append, List.length_take,
              hbl0 hbe]; omega)]
        rw [hsecond]
        constructor
        · have hres : (x ++ y).take r.headerReader.val =
              (r.buffer ++ x) ++ y.take (r.headerReader.val - x.length) := by
            rw [htakeGe _ (le_of_lt h1), hbe, List.nil_append]
          rw [show (({ r with
              state := RState.DONE
              result := parse ((x ++ y).take r.headerReader.val)
              resultSource := Source.fromInput } : Reader α)).norm =
            { r with
                state := RState.DONE
                buffer := []
                result := parse ((x ++ y).take r.headerReader.val)
                resultSource := Source.fromBuffer } from by
              simp [Reader.norm, Reader.done]]
          rw [show (({ r with
              state := RState.DONE
              buffer := (r.buffer ++ x) ++
                y.take (r.headerReader.val - x.length)
              result := parse ((r.buffer ++ x) ++
                y.take (r.headerReader.val - x.length))
              resultSource := Source.fromBuffer } : Reader α)).norm =
            { r with
                state := RState.DONE
                buffer := []
                result := parse ((r.buffer ++ x) ++
                  y.take (r.headerReader.val - x.length))
                resultSource := Source.fromBuffer } from by
              simp [Reader.norm, Reader.done]]
          rw [hres]
        · simp
          omega
      · -- S3: buffered and incomplete on both sides
        push_neg at h2
        have hcomb : Reader.bodyStep parse r (x ++ y) =
            ({ r with buffer := r.buffer ++ (x ++ y) },
             x.length + y.length) := by
          simp only [Reader.bodyStep]
          rw [if_neg (by
            rintro ⟨h, hlen⟩
            rw [List.length_append] at hlen
            omega)]
          have htc : min (x ++ y).length
              (r.headerReader.val - r.buffer.length) =
              (x ++ y).length := by
            simp [List.length_append, hbl0 hbe]
            omega
          rw [htc, List.take_length,
            if_neg (by simp [List.length_append, hbl0 hbe]; omega)]
          simp [List.length_append]
        have hfirst : Reader.bodyStep parse r x =
            ({ r with buffer := r.buffer ++ x }, x.length) := by
          simp only [Reader.bodyStep]
          rw [if_neg (fun hc => absurd hc.2 (by omega))]
          have htc : min x.length (r.headerReader.val - r.buffer.length) =
              x.length := by
            have := hbl0 hbe
            omega
          rw [htc, List.take_length,
            if_neg (by simp [List.length_append, hbl0 hbe]; omega)]
        rw [hcomb, hfirst,
          Reader.feed_body w parse ({ r with buffer := r.buffer ++ x }) y
            (by exact hstate) hy]
        have hbne : ({ r with buffer := r.buffer ++ x } :
            Reader α).buffer ≠ [] := by
          simp [hx]
        have hsecond : Reader.bodyStep parse
            ({ r with buffer := r.buffer ++ x }) y =
            ({ r with buffer := (r.buffer ++ x) ++ y }, y.length) := by
          simp only [Reader.bodyStep]
          rw [if_neg (fun hc => absurd hc.1 hbne)]
          have htc2 : min y.length (r.headerReader.val -
              (r.buffer ++ x).length) = y.length := by
            simp [List.length_append, hbl0 hbe]
            omega
          rw [htc2, List.take_length,
            if_neg (by simp [List.length_append, hbl0 hbe]; omega)]
        rw [hsecond]
        exact ⟨by rw [List.append_assoc], by simp⟩
  · -- S4: the owned buffer is nonempty, all paths buffered
    have hbl : 0 < r.buffer.length := List.length_pos.mpr hbe
    by_cases h4a : r.headerReader.val - r.buffer.length ≤ x.length
    · -- S4a: completion within x
      have hcomb : Reader.bodyStep parse r (x ++ y) =
          ({ r with
              state := RState.DONE
              buffer := r.buffer ++
                x.take (r.headerReader.val - r.buffer.length)
              result := parse (r.buffer ++
                x.take (r.headerReader.val - r.buffer.length))
              resultSource := Source.fromBuffer },
           r.headerReader.val - r.buffer.length) := by
        simp only [Reader.bodyStep]
        rw [if_neg (fun hc => absurd hc.1 hbe)]
        have htc : min (x ++ y).length
            (r.headerReader.val - r.buffer.length) =
            r.headerReader.val - r.buffer.length := by
          simp [List.length_append]
          omega
        rw [htc, htakeLe _ h4a,
          if_pos (by simp [List.length_append, List.length_take]; omega)]
      have hfirst : Reader.bodyStep parse r x =
          ({ r with
              state := RState.DONE
              buffer := r.buffer ++
                x.take (r.headerReader.val - r.buffer.length)
              result := parse (r.buffer ++
                x.take (r.headerReader.val - r.buffer.length))
              resultSource := Source.fromBuffer },
           r.headerReader.val - r.buffer.length) := by
        simp only [Reader.bodyStep]
        rw [if_neg (fun hc => absurd hc.1 hbe)]
        have htc : min x.length (r.headerReader.val - r.buffer.length) =
            r.headerReader.val - r.buffer.length := by
          omega
        rw [htc,
          if_pos (by simp [List.length_append, List.length_take]; omega)]
      rw [hcomb, hfirst,
        Reader.feed_of_done w parse _ y (by simp [Reader.done])]
      exact ⟨rfl, by simp⟩
    · push_neg at h4a
      by_cases h4b : r.headerReader.val - r.buffer.length ≤
          x.length + y.length
      · -- S4b: completion within y
        have hcomb : Reader.bodyStep parse r (x ++ y) =
            ({ r with
                state := RState.DONE
                buffer := r.buffer ++
                  (x ++ y.take
                    (r.headerReader.val - r.buffer.length - x.length))
                result := parse (r.buffer ++
                  (x ++ y.take
                    (r.headerReader.val - r.buffer.length - x.length)))
                resultSource := Source.fromBuffer },
             r.headerReader.val - r.buffer.length) := by
          simp only [Reader.bodyStep]
          rw [if_neg (fun hc => absurd hc.1 hbe)]
          have htc : min (x ++ y).length
              (r.headerReader.val - r.buffer.length) =
              r.headerReader.val - r.buffer.length := by
            simp [List.length_append]
            omega
          rw [htc, htakeGe _ (le_of_lt h4a),
            if_pos (by simp [List.length_append, List.length_take]; omega)]
        have hfirst : Reader.bodyStep parse r x =
            ({ r with buffer := r.buffer ++ x }, x.length) := by
          simp only [Reader.bodyStep]
          rw [if_neg (fun hc => absurd hc.1 hbe)]
          have htc : min x.length (r.headerReader.val - r.buffer.length) =
              x.length := by
            omega
          rw [htc, List.take_length,
            if_neg (by simp [List.length_append]; omega)]
        rw [hcomb, hfirst,
          Reader.feed_body w parse ({ r with buffer := r.buffer ++ x }) y
            (by exact hstate) hy]
        have hbne : ({ r with buffer := r.buffer ++ x } :
            Reader α).buffer ≠ [] := by
          simp [hx]
        have hsecond : Reader.bodyStep parse
            ({ r with buffer := r.buffer ++ x }) y =
            ({ r with
                state := RState.DONE
                buffer := (r.buffer ++ x) ++
                  y.take (r.headerReader.val - r.buffer.length - x.length)
                result := parse ((r.buffer ++ x) ++
                  y.take (r.headerReader.val - r.buffer.length - x.length))
                resultSource := Source.fromBuffer },
             r.headerReader.val - r.buffer.length - x.length) := by
          simp only [Reader.bodyStep]
          rw [if_neg (fun hc => absurd hc.1 hbne)]
          have htc2 : min y.length (r.headerReader.val -
              (r.buffer ++ x).length) =
              r.headerReader.val - r.buffer.length - x.length := by
            simp [List.length_append]
            omega
          rw [htc2,
            if_pos (by simp [List.length_append, List.length_take]; omega)]
        rw [hsecond]
        constructor
        · rw [List.append_assoc]
        · simp
          omega
      · -- S4c: incomplete on both sides
        push_neg at h4b
        have hcomb : Reader.bodyStep parse r (x ++ y) =
            ({ r with buffer := r.buffer ++ (x ++ y) },
             x.length + y.length) := by
          simp only [Reader.bodyStep]
          rw [if_neg (fun hc => absurd hc.1 hbe)]
          have htc : min (x ++ y).length
              (r.headerReader.val - r.buffer.length) =
              (x ++ y).length := by
            simp [List.length_append]
            omega
          rw [htc, List.take_length,
            if_neg (by simp [List.length_append]; omega)]
          simp [List.length_append]
        have hfirst : Reader.bodyStep parse r x =
            ({ r with buffer := r.buffer ++ x }, x.length) := by
          simp only [Reader.bodyStep]
          rw [if_neg (fun hc => absurd hc.1 hbe)]
          have htc : min x.length (r.headerReader.val - r.buffer.length) =
              x.length := by
            omega
          rw [htc, List.take_length,
            if_neg (by simp [List.length_append]; omega)]
        rw [hcomb, hfirst,
          Reader.feed_body w parse ({ r with buffer := r.buffer ++ x }) y
            (by exact hstate) hy]
        have hbne : ({ r with buffer := r.buffer ++ x } :
            Reader α).buffer ≠ [] := by
          simp [hx]
        have hsecond : Reader.bodyStep parse
            ({ r with buffer := r.buffer ++ x }) y =
            ({ r with buffer := (r.buffer ++ x) ++ y }, y.length) := by
          simp only [Reader.bodyStep]
          rw [if_neg (fun hc => absurd hc.1 hbne)]
          have htc2 : min y.length (r.headerReader.val -
              (r.buffer ++ x).length) = y.length := by
            simp [List.length_append]
            omega
          rw [htc2, List.take_length,
            if_neg (by simp [List.length_append]; omega)]
        rw [hsecond]
        exact ⟨by rw [List.append_assoc], by simp⟩

/-- The body arm preserves the reachability invariant. -/
theorem Reader.bodyStep_Inv {α : Type} (w : Nat) (parse : List Nat → α)
    (r : Reader α) (current : List Nat)
    (hstate : r.state = RState.READING_BODY)
    (hacc : r.headerReader.acc.length = w)
    (hv : 0 < r.headerReader.val)
    (hblt : r.buffer.length < r.headerReader.val) :
    Reader.Inv w (Reader.bodyStep parse r current).1 := by
  simp only [Reader.bodyStep]
  split_ifs with hA hB
  · exact ⟨by simp [Reader.Inv], by simp⟩
  · exact ⟨by simp [Reader.Inv], by simp⟩
  · constructor
    · intro h
      have h' : r.state = RState.READING_HEADER := h
      rw [hstate] at h'
      exact absurd h' (by simp)
    · intro _
      refine ⟨hacc, hv, ?_⟩
      have hB' := hB
      simp only [List.length_append, List.length_take] at hB'
      show (r.buffer ++ current.take (min current.length
          (r.headerReader.val - r.buffer.length))).length <
        r.headerReader.val
      simp only [List.length_append, List.length_take]
      omega

/-- `feed` preserves the reachability invariant. -/
theorem Reader.feed_Inv {α : Type} (w : Nat) (parse : List Nat → α)
    (r : Reader α) (data : List Nat) (hInv : Reader.Inv w r) :
    Reader.Inv w (Reader.feed w parse r data).1 := by
  rw [Reader.feed]
  split_ifs with h0
  · exact hInv
  · cases hs : r.state with
    | READING_HEADER =>
        obtain ⟨hlen, hbuf⟩ := hInv.1 hs
        show Reader.Inv w (Reader.headerStep w parse r data).1
        simp only [Reader.headerStep]
        split_ifs with hA hB hC hD
        · exact ⟨by simp, by simp⟩
        · exact ⟨by simp, by simp⟩
        · refine Reader.bodyStep_Inv w parse _ _ rfl hA
            (Nat.pos_of_ne_zero hC) ?_
          show r.buffer.length < (UintMessage.feed w r.headerReader data).1.val
          rw [hbuf]
          exact Nat.pos_of_ne_zero hC
        · constructor
          · intro h
            exact absurd h (by simp)
          · intro _
            exact ⟨hA, Nat.pos_of_ne_zero hC, by
              show r.buffer.length <
                (UintMessage.feed w r.headerReader data).1.val
              rw [hbuf]
              exact Nat.pos_of_ne_zero hC⟩
        · constructor
          · intro _
            refine ⟨?_, hbuf⟩
            show (UintMessage.feed w r.headerReader data).1.acc.length < w
            have hA' := hA
            simp only [UintMessage.feed, List.length_append,
              List.length_take] at hA' ⊢
            omega
          · intro h
            have h' : r.state = RState.READING_BODY := h
            rw [hs] at h'
            exact absurd h' (by simp)
    | READING_BODY =>
        obtain ⟨hacc, hv, hblt⟩ := hInv.2 hs
        exact Reader.bodyStep_Inv w parse r data hs hacc hv hblt
    | DONE => exact absurd (Or.inr (by simp [Reader.done, hs])) h0
    | ERROR => exact absurd (Or.inr (by simp [Reader.done, hs])) h0

theorem UintMessage.feed_done_noop (w : Nat) (m : UintMessage)
    (h : m.acc.length = w) (data : List Nat) :
    UintMessage.feed w m data = (m, 0) := by
  simp [UintMessage.feed, h]

theorem UintMessage.feed_consumed (w : Nat) (m : UintMessage)
    (data : List Nat) :
    (UintMessage.feed w m data).2 = min data.length (w - m.acc.length) := rfl

theorem UintMessage.feed_acc_length (w : Nat) (m : UintMessage)
    (data : List Nat) :
    (UintMessage.feed w m data).1.acc.length =
      m.acc.length + min data.length (w - m.acc.length) := by
  simp [UintMessage.feed]

/-- While the reader is in the header phase, a `feed` call with a nonempty
chunk is the header arm. -/
theorem Reader.feed_header_eq {α : Type} (w : Nat) (parse : List Nat → α)
    (r : Reader α) (data : List Nat)
    (hstate : r.state = RState.READING_HEADER) (hne : data ≠ []) :
    Reader.feed w parse r data = Reader.headerStep w parse r data := by
  have h0 : ¬ (data.length = 0 ∨ r.done = true) := by
    simp [Reader.done, hstate, List.length_eq_zero]
    exact hne
  rw [Reader.feed, if_neg h0, hstate]

/-- Composition of feeds from any reachable reader state: feeding `a ++ b`
equals (modulo `norm`) feeding `a` and then `b`, with consumed counts adding
up. -/
theorem Reader.feed_append {α : Type} (w : Nat) (parse : List Nat → α)
    (r : Reader α) (a b : List Nat) (hInv : Reader.Inv w r) :
    (Reader.feed w parse r (a ++ b)).1.norm =
      (Reader.feed w parse (Reader.feed w parse r a).1 b).1.norm ∧
    (Reader.feed w parse r (a ++ b)).2 =
      (Reader.feed w parse r a).2 +
        (Reader.feed w parse (Reader.feed w parse r a).1 b).2 := by
  by_cases ha : a = []
  · subst ha
    rw [List.nil_append, Reader.feed_nil]
    exact ⟨rfl, by simp⟩
  by_cases hb : b = []
  · subst hb
    rw [List.append_nil, Reader.feed_nil]
    exact ⟨rfl, by simp⟩
  by_cases hdone : r.done = true
  · rw [Reader.feed_of_done w parse r (a ++ b) hdone,
      Reader.feed_of_done w parse r a hdone,
      Reader.feed_of_done w parse r b hdone]
    exact ⟨rfl, rfl⟩
  have hal : 0 < a.length := List.length_pos.mpr ha
  have hbl : 0 < b.length := List.length_pos.mpr hb
  cases hs : r.state with
  | DONE => exact absurd (by simp [Reader.done, hs]) hdone
  | ERROR => exact absurd (by simp [Reader.done, hs]) hdone
  | READING_BODY =>
      obtain ⟨hacc, hv, hblt⟩ := hInv.2 hs
      exact Reader.feed_append_body w parse r a b hs hv hblt
  | READING_HEADER =>
      obtain ⟨hlen, hbuf⟩ := hInv.1 hs
      rw [Reader.feed_header_eq w parse r (a ++ b) hs (by simp [ha]),
        Reader.feed_header_eq w parse r a hs ha]
      simp only [Reader.headerStep]
      rw [UintMessage.feed_split w r.headerReader a b]
      by_cases hA1 : (UintMessage.feed w r.headerReader a).1.acc.length = w
      · -- header completes within a
        rw [UintMessage.feed_done_noop w _ hA1 b]
        have hd1 : (UintMessage.feed w r.headerReader a).2 ≤ a.length := by
          rw [UintMessage.feed_consumed]
          omega
        simp only [if_pos hA1, Nat.add_zero]
        by_cases hB : 0 < r.maxSize ∧
            r.maxSize < (UintMessage.feed w r.headerReader a).1.val
        · rw [if_pos hB, if_pos hB,
            Reader.feed_of_done w parse _ b (by simp [Reader.done])]
          exact ⟨rfl, by simp⟩
        · rw [if_neg hB, if_neg hB]
          by_cases hC : (UintMessage.feed w r.headerReader a).1.val = 0
          · rw [if_pos hC, if_pos hC,
              Reader.feed_of_done w parse _ b (by simp [Reader.done])]
            exact ⟨rfl, by simp⟩
          · rw [if_neg hC, if_neg hC]
            have hltC : (UintMessage.feed w r.headerReader a).2 <
                (a ++ b).length := by
              rw [List.length_append]
              omega
            rw [if_pos hltC]
            have hdropC : (a ++ b).drop (UintMessage.feed w r.headerReader a).2 =
                a.drop (UintMessage.feed w r.headerReader a).2 ++ b := by
              rw [List.drop_append_eq_append_drop,
                Nat.sub_eq_zero_of_le hd1, List.drop_zero]
            rw [hdropC]
            have hstate2 : ({ r with
                headerReader := (UintMessage.feed w r.headerReader a).1,
                state := RState.READING_BODY } : Reader α).state =
                RState.READING_BODY := rfl
            have hv2 : 0 < ({ r with
                headerReader := (UintMessage.feed w r.headerReader a).1,
                state := RState.READING_BODY } :
                Reader α).headerReader.val := Nat.pos_of_ne_zero hC
            have hblt2 : ({ r with
                headerReader := (UintMessage.feed w r.headerReader a).1,
                state := RState.READING_BODY } : Reader α).buffer.length <
                ({ r with
                  headerReader := (UintMessage.feed w r.headerReader a).1,
                  state := RState.READING_BODY } :
                  Reader α).headerReader.val := by
              show r.buffer.length < _
              rw [hbuf]
              exact Nat.pos_of_ne_zero hC
            have hkey := Reader.feed_append_body w parse
              ({ r with
                headerReader := (UintMessage.feed w r.headerReader a).1,
                state := RState.READING_BODY })
              (a.drop (UintMessage.feed w r.headerReader a).2) b
              hstate2 hv2 hblt2
            have hxb : a.drop (UintMessage.feed w r.headerReader a).2 ++ b ≠
                [] := by
              simp [hb]
            rw [← Reader.feed_body w parse _ _ hstate2 hxb]
            by_cases hD : (UintMessage.feed w r.headerReader a).2 < a.length
            · rw [if_pos hD]
              have hxne : a.drop (UintMessage.feed w r.headerReader a).2 ≠
                  [] := by
                intro hcon
                have := congrArg List.length hcon
                simp at this
                omega
              rw [← Reader.feed_body w parse _ _ hstate2 hxne]
              refine ⟨by rw [hkey.1], ?_⟩
              simp only []
              rw [hkey.2]
              omega
            · rw [if_neg hD]
              have hdla : (UintMessage.feed w r.headerReader a).2 =
                  a.length := by omega
              have hxnil : a.drop (UintMessage.feed w r.headerReader a).2 =
                  [] := by
                rw [hdla]
                simp
              rw [hxnil, List.nil_append]
              exact ⟨rfl, rfl⟩
      · -- header still incomplete after a
        have hd1 : (UintMessage.feed w r.headerReader a).2 = a.length := by
          rw [UintMessage.feed_consumed]
          rw [UintMessage.feed_acc_length] at hA1
          omega
        rw [if_neg hA1]
        rw [Reader.feed_header_eq w parse
          ({ r with headerReader := (UintMessage.feed w r.headerReader a).1 })
          b (by exact hs) hb]
        simp only [Reader.headerStep]
        have hd2 : (UintMessage.feed w
            (UintMessage.feed w r.headerReader a).1 b).2 ≤ b.length := by
          rw [UintMessage.feed_consumed]
          omega
        by_cases hA2 : (UintMessage.feed w
            (UintMessage.feed w r.headerReader a).1 b).1.acc.length = w
        · rw [if_pos hA2, if_pos hA2]
          by_cases hB : 0 < r.maxSize ∧ r.maxSize <
              (UintMessage.feed w
                (UintMessage.feed w r.headerReader a).1 b).1.val
          · rw [if_pos hB, if_pos hB]
            exact ⟨rfl, rfl⟩
          · rw [if_neg hB, if_neg hB]
            by_cases hC : (UintMessage.feed w
                (UintMessage.feed w r.headerReader a).1 b).1.val = 0
            · rw [if_pos hC, if_pos hC]
              exact ⟨rfl, rfl⟩
            · rw [if_neg hC, if_neg hC]
              have hdrop2 : (a ++ b).drop
                  ((UintMessage.feed w r.headerReader a).2 +
                    (UintMessage.feed w
                      (UintMessage.feed w r.headerReader a).1 b).2) =
                  b.drop (UintMessage.feed w
                    (UintMessage.feed w r.headerReader a).1 b).2 := by
                rw [List.drop_append_eq_append_drop, hd1]
                rw [List.drop_eq_nil_of_le (by omega), List.nil_append]
                congr 1
                omega
              by_cases hD : (UintMessage.feed w
                  (UintMessage.feed w r.headerReader a).1 b).2 < b.length
              · rw [if_pos (by rw [List.length_append, hd1]; omega),
                  if_pos hD, hdrop2]
                exact ⟨rfl, by simp [Nat.add_assoc]⟩
              · rw [if_neg (by rw [List.length_append, hd1]; omega),
                  if_neg hD]
                exact ⟨rfl, rfl⟩
        · rw [if_neg hA2, if_neg hA2]
          exact ⟨rfl, rfl⟩

theorem Reader.fresh_Inv {α : Type} (w : Nat) (hw : 0 < w) (m : Nat)
    (a0 : α) : Reader.Inv w (Reader.fresh m a0) := by
  constructor
  · intro _
    exact ⟨by simpa [Reader.fresh, UintMessage.start] using hw, rfl⟩
  · intro h
    simp [Reader.fresh] at h

/-- Feeding a list of chunks one after the other is the same (modulo `norm`)
as feeding their concatenation in one call, and the total consumed counts
agree. -/
theorem Reader.feedMany_join {α : Type} (w : Nat) (parse : List Nat → α)
    (cs : List (List Nat)) :
    ∀ (r : Reader α), Reader.Inv w r →
      (Reader.feedMany w parse r cs).1.norm =
        (Reader.feed w parse r cs.flatten).1.norm ∧
      (Reader.feedMany w parse r cs).2 =
        (Reader.feed w parse r cs.flatten).2 := by
  induction cs with
  | nil =>
      intro r _
      rw [show (([] : List (List Nat))).flatten = [] from rfl, Reader.feed_nil]
      exact ⟨rfl, rfl⟩
  | cons c cs ih =>
      intro r hInv
      have hp := Reader.feed_append w parse r c cs.flatten hInv
      have hq := ih (Reader.feed w parse r c).1
        (Reader.feed_Inv w parse r c hInv)
      have hflat : (c :: cs).flatten = c ++ cs.flatten := rfl
      rw [hflat]
      refine ⟨hq.1.trans hp.1.symm, ?_⟩
      show (Reader.feed w parse r c).2 +
        (Reader.feedMany w parse (Reader.feed w parse r c).1 cs).2 = _
      rw [hq.2, hp.2]

/-!
## C1: fragmentation independence
-/

/-- C1: for every byte sequence and every partition of it into consecutive
chunks, feeding the chunks in order to a fresh `ArrayMessage` (resp.
`ScalarMessage`) yields the same final state (hence the same Done/Error
status), the same decoded value contents, and the same total number of
consumed bytes as feeding the whole sequence in one `feed` call. -/
theorem C1_fragmentation_independence (chunks : List (List Nat)) :
    ((ArrayMessage.feed (ArrayMessage.fresh 0) chunks.flatten).1.state =
        (ArrayMessage.feedMany (ArrayMessage.fresh 0) chunks).1.state ∧
      (ArrayMessage.feed (ArrayMessage.fresh 0) chunks.flatten).1.result =
        (ArrayMessage.feedMany (ArrayMessage.fresh 0) chunks).1.result ∧
      (ArrayMessage.feed (ArrayMessage.fresh 0) chunks.flatten).2 =
        (ArrayMessage.feedMany (ArrayMessage.fresh 0) chunks).2) ∧
    ((ScalarMessage.feed (ScalarMessage.fresh 0) chunks.flatten).1.state =
        (ScalarMessage.feedMany (ScalarMessage.fresh 0) chunks).1.state ∧
      (ScalarMessage.feed (ScalarMessage.fresh 0) chunks.flatten).1.result =
        (ScalarMessage.feedMany (ScalarMessage.fresh 0) chunks).1.result ∧
      (ScalarMessage.feed (ScalarMessage.fresh 0) chunks.flatten).2 =
        (ScalarMessage.feedMany (ScalarMessage.fresh 0) chunks).2) := by
  have hA := Reader.feedMany_join 2 ArrayMessage.parseBody chunks
    (Reader.fresh 0 []) (Reader.fresh_Inv 2 (by norm_num) 0 [])
  have hS := Reader.feedMany_join 4 (fun b => b) chunks
    (Reader.fresh 0 []) (Reader.fresh_Inv 4 (by norm_num) 0 [])
  exact ⟨⟨(congrArg Reader.state hA.1).symm,
      (congrArg Reader.result hA.1).symm, hA.2.symm⟩,
    ⟨(congrArg Reader.state hS.1).symm,
      (congrArg Reader.result hS.1).symm, hS.2.symm⟩⟩

/-!
## C6: consumption monotonicity and after-done no-op
-/

theorem Reader.bodyStep_le {α : Type} (parse : List Nat → α)
    (r : Reader α) (current : List Nat) :
    (Reader.bodyStep parse r current).2 ≤ current.length := by
  simp only [Reader.bodyStep]
  split_ifs with h1 h2
  · exact h1.2
  · exact min_le_left _ _
  · exact min_le_left _ _

theorem Reader.feed_le {α : Type} (w : Nat) (parse : List Nat → α)
    (r : Reader α) (data : List Nat) :
    (Reader.feed w parse r data).2 ≤ data.length := by
  rw [Reader.feed]
  split_ifs with h0
  · simp
  · cases hs : r.state with
    | READING_HEADER =>
        show (Reader.headerStep w parse r data).2 ≤ data.length
        simp only [Reader.headerStep]
        have hd : (UintMessage.feed w r.headerReader data).2 ≤
            data.length := by
          rw [UintMessage.feed_consumed]
          exact min_le_left _ _
        split_ifs with hA hB hC hD
        · exact hd
        · exact hd
        · have hb := Reader.bodyStep_le parse
            ({ r with
              headerReader := (UintMessage.feed w r.headerReader data).1,
              state := RState.READING_BODY })
            (data.drop (UintMessage.feed w r.headerReader data).2)
          rw [List.length_drop] at hb
          show (UintMessage.feed w r.headerReader data).2 + _ ≤ _
          omega
        · exact hd
        · exact hd
    | READING_BODY => exact Reader.bodyStep_le parse r data
    | DONE => simp
    | ERROR => simp

/-- C6: the integer codecs consume exactly `min(size, width - consumed)`
bytes per call and become inert once done; the framed readers never consume
more than the supplied chunk, never consume bytes beyond the ones that
complete the current message, and once `done()` holds every further `feed`
is a no-op that consumes 0 and leaves the whole state (value included)
unchanged. -/
theorem C6_consumption_and_after_done :
    (∀ (w : Nat) (m : UintMessage) (data : List Nat),
      (UintMessage.feed w m data).2 = min data.length (w - m.acc.length)) ∧
    (∀ (w : Nat) (m : UintMessage) (data : List Nat),
      UintMessage.done w m = true → UintMessage.feed w m data = (m, 0)) ∧
    (∀ {α : Type} (w : Nat) (parse : List Nat → α) (r : Reader α)
      (data : List Nat), r.done = true →
      Reader.feed w parse r data = (r, 0)) ∧
    (∀ {α : Type} (w : Nat) (parse : List Nat → α) (r : Reader α)
      (data : List Nat), (Reader.feed w parse r data).2 ≤ data.length) ∧
    (∀ {α : Type} (w : Nat) (parse : List Nat → α) (r : Reader α)
      (u v : List Nat), Reader.Inv w r →
      (Reader.feed w parse r u).1.done = true →
      (Reader.feed w parse r (u ++ v)).2 = (Reader.feed w parse r u).2) := by
  refine ⟨fun w m data => rfl,
    fun w m data hdone => ?_,
    fun w parse r data hdone => Reader.feed_of_done w parse r data hdone,
    fun w parse r data => Reader.feed_le w parse r data,
    fun w parse r u v hInv hdone => ?_⟩
  · exact UintMessage.feed_done_noop w m (by simpa [UintMessage.done] using hdone) data
  · have h := (Reader.feed_append w parse r u v hInv).2
    rw [Reader.feed_of_done w parse _ v hdone] at h
    rw [h]
    simp

theorem C6_consumption_witness :
    (UintMessage.done 2 ⟨[0, 1], 1⟩ = true ∧
      Reader.Inv 2 (Reader.fresh 0 ([] : List (List Nat))) ∧
      (Reader.feed 2 ArrayMessage.parseBody
        (Reader.fresh 0 ([] : List (List Nat))) [0, 1, 9]).1.done = true) ∧
    UintMessage.feed 2 ⟨[0, 1], 1⟩ [7, 8] = (⟨[0, 1], 1⟩, 0) ∧
    (Reader.feed 2 ArrayMessage.parseBody
        (Reader.fresh 0 ([] : List (List Nat))) ([0, 1, 9] ++ [5, 6])).2 =
      (Reader.feed 2 ArrayMessage.parseBody
        (Reader.fresh 0 ([] : List (List Nat))) [0, 1, 9]).2 :=
  ⟨⟨by decide, Reader.fresh_Inv 2 (by norm_num) 0 [], by decide⟩,
   C6_consumption_and_after_done.2.1 2 ⟨[0, 1], 1⟩ [7, 8] (by decide),
   C6_consumption_and_after_done.2.2.2.2 2 ArrayMessage.parseBody
     (Reader.fresh 0 ([] : List (List Nat))) [0, 1, 9] [5, 6]
     (Reader.fresh_Inv 2 (by norm_num) 0 []) (by decide)⟩

/-!
## C2: generator/reader round trip
-/

theorem arrayGenerate_size (args : List (List Nat)) (acc : Nat)
    (hacc : acc < 2 ^ 32) :
    args.foldl (fun a x => (a + x.length + 1) % 2 ^ 32) acc =
      (acc + (args.map (fun a => a.length + 1)).sum) % 2 ^ 32 := by
  induction args generalizing acc with
  | nil =>
      simp
      omega
  | cons a as ih =>
      rw [List.foldl_cons, ih ((acc + a.length + 1) % 2 ^ 32)
        (Nat.mod_lt _ (by norm_num)), Nat.mod_add_mod]
      simp only [List.map_cons, List.sum_cons]
      congr 1
      omega

theorem interleaveNul_flatten (args : List (List Nat)) :
    (interleaveNul args).flatten = (args.map (fun a => a ++ [0])).flatten := by
  induction args with
  | nil => rfl
  | cons a as ih => simp [interleaveNul, ih]

theorem arrayBody_length (args : List (List Nat)) :
    ((args.map (fun a => a ++ [0])).flatten).length =
      (args.map (fun a => a.length + 1)).sum := by
  induction args with
  | nil => rfl
  | cons a as ih =>
      simp [ih]
      omega

/-- C2: feeding the concatenation of the views produced by
`ArrayMessage::generate` (fields free of NUL bytes, body within the 16-bit
ceiling) to a fresh `ArrayMessage` reaches `DONE` without error and `value()`
reproduces the fields; feeding the concatenation of the views produced by the
single-payload `ScalarMessage::generate` (payload within the 32-bit ceiling)
to a fresh `ScalarMessage` reaches `DONE` without error and `value()`
reproduces the payload. -/
theorem C2_roundtrip (args : List (List Nat)) (payload : List Nat) :
    ((∀ f ∈ args, 0 ∉ f) →
      (args.map (fun a => a.length + 1)).sum ≤ 0xFFFF →
      ∃ views, ArrayMessage.generate args = Except.ok views ∧
        (ArrayMessage.feed (ArrayMessage.fresh 0) views.flatten).1.state =
          RState.DONE ∧
        (ArrayMessage.feed (ArrayMessage.fresh 0) views.flatten).1.hasError =
          false ∧
        (ArrayMessage.feed (ArrayMessage.fresh 0) views.flatten).1.value =
          args) ∧
    (payload.length ≤ 0xFFFFFFFF →
      ∃ views, ScalarMessage.generateOne payload = Except.ok views ∧
        (ScalarMessage.feed (ScalarMessage.fresh 0) views.flatten).1.state =
          RState.DONE ∧
        (ScalarMessage.feed (ScalarMessage.fresh 0) views.flatten).1.hasError =
          false ∧
        (ScalarMessage.feed (ScalarMessage.fresh 0) views.flatten).1.value =
          payload) := by
  constructor
  · intro h1 h2
    have hSlt : (args.map (fun a => a.length + 1)).sum < 2 ^ 32 := by
      omega
    have hsize : args.foldl (fun a x => (a + x.length + 1) % 2 ^ 32) 0 =
        (args.map (fun a => a.length + 1)).sum := by
      rw [arrayGenerate_size args 0 (by norm_num), Nat.zero_add,
        Nat.mod_eq_of_lt hSlt]
    have hgen : ArrayMessage.generate args =
        Except.ok (beBytes 2 ((args.map (fun a => a.length + 1)).sum) ::
          interleaveNul args) := by
      simp only [ArrayMessage.generate, hsize]
      rw [if_neg (not_lt.mpr h2)]
    refine ⟨_, hgen, ?_⟩
    have hflat : (beBytes 2 ((args.map (fun a => a.length + 1)).sum) ::
        interleaveNul args).flatten =
        beBytes 2 ((args.map (fun a => a.length + 1)).sum) ++
          (args.map (fun a => a ++ [0])).flatten := by
      rw [List.flatten_cons, interleaveNul_flatten]
    by_cases hS0 : (args.map (fun a => a.length + 1)).sum = 0
    · have hargs : args = [] := by
        cases args with
        | nil => rfl
        | cons a as => simp at hS0
      subst hargs
      decide
    · have hvlt : (args.map (fun a => a.length + 1)).sum < 256 ^ 2 := by
        have h256 : (256 : Nat) ^ 2 = 65536 := by norm_num
        omega
      have hbne : (args.map (fun a => a ++ [0])).flatten ≠ [] := by
        intro hcon
        have hlen0 : (args.map (fun a => a.length + 1)).sum = 0 := by
          rw [← arrayBody_length args, hcon]
          rfl
        exact hS0 hlen0
      rw [hflat]
      simp only [ArrayMessage.feed, ArrayMessage.fresh]
      rw [Reader.feed_fresh_header_cons 2 ArrayMessage.parseBody []
          0 ((args.map (fun a => a.length + 1)).sum) (by norm_num) hvlt
          (fun hc => absurd hc.1 (lt_irrefl 0)) hS0
          ((args.map (fun a => a ++ [0])).flatten) hbne]
      have hbody : Reader.bodyStep ArrayMessage.parseBody
          (⟨RState.READING_BODY, 0, 0,
            ⟨beBytes 2 ((args.map (fun a => a.length + 1)).sum),
              (args.map (fun a => a.length + 1)).sum⟩, [], [],
            Source.fromBuffer⟩ : Reader (List (List Nat)))
          ((args.map (fun a => a ++ [0])).flatten) =
          ((⟨RState.DONE, 0, 0,
            ⟨beBytes 2 ((args.map (fun a => a.length + 1)).sum),
              (args.map (fun a => a.length + 1)).sum⟩, [], args,
            Source.fromInput⟩ : Reader (List (List Nat))),
           (args.map (fun a => a.length + 1)).sum) := by
        simp only [Reader.bodyStep]
        rw [if_pos ⟨trivial, le_of_eq (arrayBody_length args).symm⟩]
        rw [List.take_of_length_le (le_of_eq (arrayBody_length args))]
        have hparse : ArrayMessage.parseBody
            ((args.map (fun a => a ++ [0])).flatten) = args := by
          have := parseBody_encode args [] h1 (by simp)
          rwa [List.append_nil] at this
        rw [hparse]
      rw [hbody]
      exact ⟨rfl, rfl, rfl⟩
  · intro hlen
    have hgen : ScalarMessage.generateOne payload =
        Except.ok [beBytes 4 payload.length, payload] := by
      rw [ScalarMessage.generateOne, if_neg (not_lt.mpr hlen)]
    refine ⟨_, hgen, ?_⟩
    have hflat : ([beBytes 4 payload.length, payload] :
        List (List Nat)).flatten = beBytes 4 payload.length ++ payload := by
      simp
    by_cases hP0 : payload = []
    · subst hP0
      decide
    · have hvlt : payload.length < 256 ^ 4 := by
        have h256 : (256 : Nat) ^ 4 = 4294967296 := by norm_num
        omega
      have hpne : payload.length ≠ 0 := by
        have := List.length_pos.mpr hP0
        omega
      rw [hflat]
      simp only [ScalarMessage.feed, ScalarMessage.fresh]
      rw [Reader.feed_fresh_header_cons 4 (fun b => b) [] 0 payload.length
          (by norm_num) hvlt (fun hc => absurd hc.1 (lt_irrefl 0)) hpne
          payload hP0]
      have hbody : Reader.bodyStep (fun b => b)
          (⟨RState.READING_BODY, 0, 0,
            ⟨beBytes 4 payload.length, payload.length⟩, [], [],
            Source.fromBuffer⟩ : Reader (List Nat)) payload =
          ((⟨RState.DONE, 0, 0,
            ⟨beBytes 4 payload.length, payload.length⟩, [], payload,
            Source.fromInput⟩ : Reader (List Nat)), payload.length) := by
        simp only [Reader.bodyStep]
        rw [if_pos ⟨trivial, le_refl _⟩, List.take_length]
      rw [hbody]
      exact ⟨rfl, rfl, rfl⟩

theorem C2_roundtrip_witness :
    ((∀ f ∈ [[97], [98, 99]], (0 : Nat) ∉ f) ∧
      (([[97], [98, 99]].map (fun (a : List Nat) => a.length + 1)).sum ≤
        0xFFFF) ∧
      ([104, 105] : List Nat).length ≤ 0xFFFFFFFF) ∧
    (∃ views, ArrayMessage.generate [[97], [98, 99]] = Except.ok views ∧
      (ArrayMessage.feed (ArrayMessage.fresh 0) views.flatten).1.state =
        RState.DONE ∧
      (ArrayMessage.feed (ArrayMessage.fresh 0) views.flatten).1.hasError =
        false ∧
      (ArrayMessage.feed (ArrayMessage.fresh 0) views.flatten).1.value =
        [[97], [98, 99]]) ∧
    (∃ views, ScalarMessage.generateOne [104, 105] = Except.ok views ∧
      (ScalarMessage.feed (ScalarMessage.fresh 0) views.flatten).1.state =
        RState.DONE ∧
      (ScalarMessage.feed (ScalarMessage.fresh 0) views.flatten).1.hasError =
        false ∧
      (ScalarMessage.feed (ScalarMessage.fresh 0) views.flatten).1.value =
        [104, 105]) :=
  ⟨⟨by decide, by decide, by decide⟩,
   (C2_roundtrip [[97], [98, 99]] [104, 105]).1 (by decide) (by decide),
   (C2_roundtrip [[97], [98, 99]] [104, 105]).2 (by decide)⟩

end Passenger
